import Mathlib

/-!
Verification of the AITracking agent-radar pipeline.

The repository contains two near-duplicate Python scripts,
`scripts/build_agent_radar.py` (the incremental variant) and
`.github/workflows/build_agent_radar.py` (the stateless workflow variant).
This file gives a shallow embedding of the pure core of both variants:

* Python `str` values are modelled as `List Char`; `str.lower` as mapping
  `Char.toLower`; the substring test `a in b` as `containsSub`.
* UTC instants are modelled as `Int` seconds since the epoch; Python's
  `timedelta.days` is floor division by 86400 (`Int.fdiv`).
* The external free-text date parser (`dateutil.parser.parse` composed with
  the UTC normalisation in `norm_date`) is a parameter
  `parse : List Char → Option Int`; failure (any exception) is `none`.
* The external HTML summariser `html_summary` is a parameter
  `summarize : List Char → List Char` (it returns `""` on any failure).
* Feed fetching is external; a feed is modelled as the list of raw entries
  it yields (an erroring fetch yields the empty list).
* `datetime.now(timezone.utc)` is passed explicitly as `now : Int`.
-/

namespace AgentRadar

open List (Sublist Perm)
open scoped List

/-- `[a-z0-9]`, the character class kept by the slug regexes. -/
def isAlnumLower (c : Char) : Bool :=
  ('a' ≤ c && c ≤ 'z') || ('0' ≤ c && c ≤ '9')

/-- Python `s.lower()` (ASCII-relevant part). -/
def lowerStr (l : List Char) : List Char := l.map Char.toLower

/-- `startsWith hay needle`: `needle` is a prefix of `hay`. -/
def startsWith : List Char → List Char → Bool
  | _, [] => true
  | [], _ :: _ => false
  | h :: hs, n :: ns => h == n && startsWith hs ns

/-- Python `needle in hay` (substring containment). -/
def containsSub : List Char → List Char → Bool
  | [], needle => startsWith [] needle
  | h :: t, needle => startsWith (h :: t) needle || containsSub t needle

/-- Python string `<=` (lexicographic on code points). -/
def strLe : List Char → List Char → Bool
  | [], _ => true
  | _ :: _, [] => false
  | a :: as, b :: bs =>
    if a.toNat < b.toNat then true
    else if b.toNat < a.toNat then false
    else strLe as bs

/-- Python string `<` (lexicographic on code points). -/
def strLt : List Char → List Char → Bool
  | [], [] => false
  | [], _ :: _ => true
  | _ :: _, [] => false
  | a :: as, b :: bs =>
    if a.toNat < b.toNat then true
    else if b.toNat < a.toNat then false
    else strLt as bs

/-!
### `classify` (scripts variant, lines 75-80)

```python
def classify(text):
    t = (text or "").lower()
    if "deprecat" in t or "sunset" in t: return "deprecation"
    if "pricing" in t or "price" in t or "$" in t: return "pricing"
    if "ga" in t or "general availability" in t or "launch" in t or "introduc" in t: return "launch"
    return "upgrade"
```
-/
def classify (text : List Char) : List Char :=
  let t := lowerStr text
  if containsSub t "deprecat".toList || containsSub t "sunset".toList then
    "deprecation".toList
  else if containsSub t "pricing".toList || containsSub t "price".toList ||
      containsSub t "$".toList then
    "pricing".toList
  else if containsSub t "ga".toList || containsSub t "general availability".toList ||
      containsSub t "launch".toList || containsSub t "introduc".toList then
    "launch".toList
  else
    "upgrade".toList

/-!
### Workflow variant classifier (workflow file, lines 99-106)

```python
lower = text.lower()
tp = "upgrade"
if "ga" in lower or "general availability" in lower or "launch" in lower or "introduc" in lower:
    tp = "launch"
if "deprecat" in lower or "sunset" in lower:
    tp = "deprecation"
if "pricing" in lower or "$" in lower or "price" in lower:
    tp = "pricing"
```
Sequential non-exclusive `if`s: a later match overwrites an earlier one.
-/
def wfClassify (text : List Char) : List Char :=
  let lower := lowerStr text
  let tp := "upgrade".toList
  let tp := if containsSub lower "ga".toList ||
      containsSub lower "general availability".toList ||
      containsSub lower "launch".toList || containsSub lower "introduc".toList then
    "launch".toList else tp
  let tp := if containsSub lower "deprecat".toList || containsSub lower "sunset".toList then
    "deprecation".toList else tp
  let tp := if containsSub lower "pricing".toList || containsSub lower "$".toList ||
      containsSub lower "price".toList then
    "pricing".toList else tp
  tp

/-!
### Slug and id construction

scripts variant (lines 82-85):
```python
def safe_id(date_str, vendor, title):
    slug = re.sub(r"[^a-z0-9]+","-", (title or "").lower()).strip("-")[:50]
    vendor_slug = re.sub(r"[^a-z0-9]+","-", (vendor or "").lower()).strip("-")
    return f"{date_str}-{vendor_slug}-{slug}"
```

workflow variant (line 114):
```python
"id": f"{dt.strftime('%Y-%m-%d')}-{vendor.lower()}-{re.sub(r'[^a-z0-9]+','-', title.lower()).strip('-')[:40]}"
```
-/

/-- `re.sub(r"[^a-z0-9]+", "-", s)`: each maximal run of characters outside
`[a-z0-9]` is replaced by a single `'-'`. -/
def collapse : List Char → List Char
  | [] => []
  | [c] => if isAlnumLower c then [c] else ['-']
  | a :: b :: rest =>
    if isAlnumLower a then a :: collapse (b :: rest)
    else if isAlnumLower b then '-' :: collapse (b :: rest)
    else collapse (b :: rest)

/-- Python `s.strip("-")`: remove leading and trailing runs of `'-'`. -/
def stripDash (l : List Char) : List Char :=
  (l.dropWhile (· == '-')).rdropWhile (· == '-')

/-- The uncapped slug of a string: lower-case, collapse non-alphanumeric
runs to `'-'`, strip boundary dashes. -/
def slugOf (s : List Char) : List Char := stripDash (collapse (lowerStr s))

/-- `safe_id` of the scripts variant.  `(title or "")` and `(vendor or "")`
are identity on strings (the arguments are strings here). -/
def safe_id (date_str vendor title : List Char) : List Char :=
  let slug := (slugOf title).take 50
  let vendor_slug := slugOf vendor
  date_str ++ '-' :: vendor_slug ++ '-' :: slug

/-- The id built inline by the workflow variant: the vendor is only
lower-cased, not slugified, and the title slug is capped at 40. -/
def wfItemId (date_str vendor title : List Char) : List Char :=
  date_str ++ '-' :: lowerStr vendor ++ '-' :: (slugOf title).take 40

/-!
### Timestamp resolution

```python
def norm_date(s):
    if not s: return None
    try:
        dt = dtp.parse(s)
        if not dt.tzinfo: dt = dt.replace(tzinfo=timezone.utc)
        return dt.astimezone(timezone.utc)
    except Exception:
        return None
```
`dtp.parse` plus the UTC normalisation is the abstract `parse` parameter.
-/
def norm_date (parse : List Char → Option Int) (s : List Char) : Option Int :=
  if s.isEmpty then none else parse s

/-- A raw-entry field value of dynamic type: a string, a pre-parsed
`time.struct_time` (carrying the UTC instant its first six fields denote),
or a value of any other (truthy) type. -/
inductive FVal where
  | fstr (s : List Char)
  | fstruct (t : Int)
  | fother
deriving DecidableEq

/-- Python truthiness of a field value (an empty string is falsy;
`struct_time` values are truthy; `fother` stands for truthy values of
other types). -/
def fvTruthy : FVal → Bool
  | .fstr s => !s.isEmpty
  | _ => true

/-- Python `x or y` for two optional field values (`none` = key absent,
i.e. `dict.get` returned `None`). -/
def pyOrF : Option FVal → Option FVal → Option FVal
  | some v, w => if fvTruthy v then some v else w
  | none, w => w

/-- Python `x or y` where both sides are optional strings. -/
def pyOrS : Option (List Char) → Option (List Char) → Option (List Char)
  | some s, w => if s.isEmpty then w else some s
  | none, w => w

/-- A raw feed entry: an open dictionary, with the keys the two scripts
access modelled as optional fields. -/
structure Entry where
  title : Option (List Char) := none
  heading : Option (List Char) := none
  link : Option (List Char) := none
  url : Option (List Char) := none
  published : Option FVal := none
  published_parsed : Option FVal := none
  updated : Option FVal := none
  updated_parsed : Option FVal := none
  date : Option FVal := none
  date_parsed : Option FVal := none
  created : Option FVal := none
  created_parsed : Option FVal := none
  date_published : Option (List Char) := none
  summary : Option (List Char) := none
  content : Option (List Char) := none
  content_text : Option (List Char) := none
deriving DecidableEq

/-- One iteration of the `pick_date` loop body for key `k`:
`v = entry.get(k) or entry.get(f"{k}_parsed")`, then
`struct_time` values are used directly and strings go through `norm_date`;
anything else falls through to the next key. -/
def tryField (parse : List Char → Option Int) (plain parsed : Option FVal) : Option Int :=
  match pyOrF plain parsed with
  | some (.fstruct t) => some t
  | some (.fstr s) => norm_date parse s
  | _ => none

/-!
`pick_date`, scripts variant (lines 50-61): loops over
`["published","updated","date","created"]` and finally falls back to the
JSON-feed key `date_published`.
-/
def pick_date (parse : List Char → Option Int) (e : Entry) : Option Int :=
  match tryField parse e.published e.published_parsed with
  | some t => some t
  | none =>
    match tryField parse e.updated e.updated_parsed with
    | some t => some t
    | none =>
      match tryField parse e.date e.date_parsed with
      | some t => some t
      | none =>
        match tryField parse e.created e.created_parsed with
        | some t => some t
        | none =>
          match e.date_published with
          | some s => norm_date parse s
          | none => none

/-- `pick_date` of the workflow variant (lines 42-50): the same four-key
loop but without the `date_published` fallback. -/
def wfPickDate (parse : List Char → Option Int) (e : Entry) : Option Int :=
  match tryField parse e.published e.published_parsed with
  | some t => some t
  | none =>
    match tryField parse e.updated e.updated_parsed with
    | some t => some t
    | none =>
      match tryField parse e.date e.date_parsed with
      | some t => some t
      | none => tryField parse e.created e.created_parsed

/-- Workflow main, line 91: `dt = pick_date(e) or norm_date(e.get("date_published"))`
(a `datetime` is always truthy). -/
def wfEntryDate (parse : List Char → Option Int) (e : Entry) : Option Int :=
  match wfPickDate parse e with
  | some t => some t
  | none =>
    match e.date_published with
    | some s => norm_date parse s
    | none => none

/-!
### Time window (identical in both variants)

```python
def in_window(dt, days):
    if not dt: return False
    return (datetime.now(timezone.utc) - dt).days <= days
```
`timedelta.days` floors, hence `Int.fdiv`.
-/
def in_window (now : Int) (dt : Option Int) (days : Int) : Bool :=
  match dt with
  | none => false
  | some d => decide (Int.fdiv (now - d) 86400 ≤ days)

/-!
### `dt.strftime("%Y-%m-%d")` for a UTC datetime

Computed from the epoch day number by the standard civil-from-days
algorithm; components are zero-padded to 4/2/2 digits.
-/
def civilFromDays (z0 : Int) : Int × Int × Int :=
  let z := z0 + 719468
  let era := Int.fdiv z 146097
  let doe := z - era * 146097
  let yoe := Int.fdiv (doe - Int.fdiv doe 1460 + Int.fdiv doe 36524 - Int.fdiv doe 146096) 365
  let y := yoe + era * 400
  let doy := doe - (365 * yoe + Int.fdiv yoe 4 - Int.fdiv yoe 100)
  let mp := Int.fdiv (5 * doy + 2) 153
  let d := doy - Int.fdiv (153 * mp + 2) 5 + 1
  let m := mp + (if mp < 10 then 3 else -9)
  (y + (if m ≤ 2 then 1 else 0), m, d)

def padLeft (w : Nat) (l : List Char) : List Char :=
  List.replicate (w - l.length) '0' ++ l

def dateStr (t : Int) : List Char :=
  let c := civilFromDays (Int.fdiv t 86400)
  padLeft 4 (Nat.toDigits 10 c.1.toNat) ++ '-' ::
    padLeft 2 (Nat.toDigits 10 c.2.1.toNat) ++ '-' ::
    padLeft 2 (Nat.toDigits 10 c.2.2.toNat)

/-!
### Keyword matching

```python
def match(text, kws):
    t = (text or "").lower()
    return any(k.lower() in t for k in kws)
```
(the workflow variant's `match_keywords` is the same test).
-/
def matchKW (text : List Char) (kws : List (List Char)) : Bool :=
  let t := lowerStr text
  kws.any fun k => containsSub t (lowerStr k)

/-- The output item record (fields as written by both scripts). -/
structure Item where
  id : List Char
  date : List Char
  name : List Char
  vendor : List Char
  type : List Char
  summary : List Char
  sources : List (List Char × List Char)
  impact : Int
  risk : Int
  audience : List Char
  tags : List (List Char)
deriving DecidableEq

/-- A vendor descriptor, with the config defaults
(`audience="dev"`, `impact=3`, `risk=3`) already resolved and each feed URL
replaced by the list of raw entries its (best-effort) fetch yields. -/
structure Vendor where
  name : List Char
  audience : List Char
  impact : Int
  risk : Int
  keywords : List (List Char)
  feeds : List (List Entry)

/-- `GLOBAL_KEYS` of the scripts variant. -/
def GLOBAL_KEYS : List (List Char) :=
  ["agent".toList, "agents".toList, "agent engine".toList, "agent builder".toList,
   "agentspace".toList, "a2a".toList, "mcp".toList, "governance".toList, "rbac".toList,
   "observability".toList, "pricing".toList, "ga".toList, "general availability".toList,
   "deprecate".toList, "deprecation".toList, "sunset".toList, "identity".toList,
   "memory".toList]

/-- `KEYS` of the workflow variant. -/
def wfKEYS : List (List Char) :=
  ["agent".toList, "agents".toList, "agent os".toList, "agent engine".toList,
   "agent builder".toList, "mcp".toList, "guardrails".toList, "governance".toList,
   "observability".toList, "trace".toList, "pricing".toList, "ga".toList,
   "general availability".toList, "deprecation".toList, "vertex".toList,
   "bedrock".toList, "langgraph".toList]

/-- The order `Python sorted` uses on strings, as a `Prop` relation. -/
def strLeRel (a b : List Char) : Prop := strLe a b = true

instance : DecidableRel strLeRel := fun a b => instDecidableEqBool (strLe a b) true

/-- scripts: `kws = sorted(set(GLOBAL_KEYS + v.get("keywords", [])))`.
Only membership in the list is ever used downstream.  Python's `sorted` is
a stable sort; `List.insertionSort` is also stable, and any two stable
sorts with the same total preorder agree, so it models `sorted` exactly. -/
def scriptsKws (vendorKws : List (List Char)) : List (List Char) :=
  ((GLOBAL_KEYS ++ vendorKws).eraseDups).insertionSort strLeRel

/-- workflow: `kws = list(set(KEYS + v.get("keywords", [])))` (set order is
unspecified in Python; only membership is ever used downstream). -/
def wfKws (vendorKws : List (List Char)) : List (List Char) :=
  (wfKEYS ++ vendorKws).eraseDups

/-!
### The per-entry body of the scripts main loop (lines 122-154)

```python
title = e.get("title") or e.get("heading") or ""
link = e.get("link") or e.get("url") or ""
if not link or not title: continue
dt = pick_date(e)
if not in_window(dt, args.days): continue
text = f"{title} {e.get('summary') or e.get('content_text') or ''} {link}"
if not match(text, kws): continue
ttype = classify(text)
date_str = dt.strftime("%Y-%m-%d")
eid = safe_id(date_str, vendor, title)
if eid in seen: continue
summ = (e.get("summary") or e.get("content_text") or "")[:220]
if not summ:
    summ = html_summary(link)
item = {...}
merged.append(item); seen.add(eid)
```

`candItem` performs everything except the `eid in seen` check (which needs
the run state and is done in `scriptsStep`).  In the source the summary is
only computed after the seen-check; since `summarize` is a pure parameter
here, computing it inside `candItem` is observationally identical.
-/
def candItem (parse : List Char → Option Int) (summarize : List Char → List Char)
    (now days : Int) (v : Vendor) (kws : List (List Char)) (e : Entry) : Option Item :=
  let title := (pyOrS e.title e.heading).getD []
  let link := (pyOrS e.link e.url).getD []
  if link.isEmpty || title.isEmpty then none
  else
    match pick_date parse e with
    | none => none
    | some d =>
      if !(in_window now (some d) days) then none
      else
        let text := title ++ ' ' :: (pyOrS e.summary e.content_text).getD [] ++ ' ' :: link
        if !(matchKW text kws) then none
        else
          let ttype := classify text
          let date_str := dateStr d
          let eid := safe_id date_str v.name title
          let summ0 := ((pyOrS e.summary e.content_text).getD []).take 220
          let summ := if summ0.isEmpty then summarize link else summ0
          some { id := eid, date := date_str, name := title.take 160, vendor := v.name,
                 type := ttype, summary := summ,
                 sources := [(v.name ++ " source".toList, link)],
                 impact := v.impact, risk := v.risk, audience := v.audience, tags := [] }

/-- The accumulating state of the scripts main: the `merged` list and the
`seen` id set (modelled as a list, only membership is used). -/
structure SState where
  merged : List Item
  seen : List (List Char)
deriving DecidableEq

def scriptsStep (parse : List Char → Option Int) (summarize : List Char → List Char)
    (now days : Int) (v : Vendor) (kws : List (List Char)) (st : SState) (e : Entry) :
    SState :=
  match candItem parse summarize now days v kws e with
  | none => st
  | some it =>
    if it.id ∈ st.seen then st
    else { merged := st.merged ++ [it], seen := it.id :: st.seen }

/-- The nested vendor/feed/entry loops of the scripts main, started from
`merged = existing` and `seen = {it["id"] for it in existing}` (the source's
`isinstance(it, dict)` guard is identity here since prior items are
modelled as records, and `it.get("id") or ""` is the `id` field). -/
def scriptsCollect (parse : List Char → Option Int) (summarize : List Char → List Char)
    (now days : Int) (existing : List Item) (vendors : List Vendor) : SState :=
  vendors.foldl
    (fun st v =>
      v.feeds.foldl
        (fun st feed =>
          feed.foldl (fun st e => scriptsStep parse summarize now days v
            (scriptsKws v.keywords) st e) st)
        st)
    { merged := existing, seen := existing.map (·.id) }

/-- The comparator realising `merged.sort(key=lambda x: x.get("date") or "",
reverse=True)`: a CPython sort is stable, and `reverse=True` sorts
descending while keeping equal keys in encounter order, i.e. it is the
stable sort with comparator "key of the left ≥ key of the right".
(`x.get("date") or ""` is the `date` field here, which is always present.)
`List.insertionSort` is such a stable sort. -/
def dateGeRel (a b : Item) : Prop := strLe b.date a.date = true

instance : DecidableRel dateGeRel :=
  fun a b => instDecidableEqBool (strLe b.date a.date) true

/-- The full scripts run (pure core of `main`): collect, sort by date
descending (stable), truncate to `top`. -/
def scriptsRun (parse : List Char → Option Int) (summarize : List Char → List Char)
    (now days : Int) (top : Nat) (existing : List Item) (vendors : List Vendor) :
    List Item :=
  (((scriptsCollect parse summarize now days existing vendors).merged).insertionSort
    dateGeRel).take top

/-!
### The per-entry body of the workflow main loop (lines 87-126)

```python
title = e.get("title") or e.get("heading") or ""
link = e.get("link") or e.get("url") or ""
if not link: continue
dt = pick_date(e) or norm_date(e.get("date_published"))
if not in_window(dt, args.days): continue
desc = e.get("summary") or e.get("content","")
text = f"{title} {desc} {link}"
if not match_keywords(text, kws): continue
... classification by sequential ifs ...
summ = (e.get("summary") or e.get("content_text") or "")[:220]
if not summ: summ = html_summary(link)
item = {...}; items.append(item)
```
-/
def wfBuild (parse : List Char → Option Int) (summarize : List Char → List Char)
    (now days : Int) (v : Vendor) (kws : List (List Char)) (e : Entry) : Option Item :=
  let title := (pyOrS e.title e.heading).getD []
  let link := (pyOrS e.link e.url).getD []
  if link.isEmpty then none
  else
    match wfEntryDate parse e with
    | none => none
    | some d =>
      if !(in_window now (some d) days) then none
      else
        let desc := (pyOrS e.summary e.content).getD []
        let text := title ++ ' ' :: desc ++ ' ' :: link
        if !(matchKW text kws) then none
        else
          let tp := wfClassify text
          let summ0 := ((pyOrS e.summary e.content_text).getD []).take 220
          let summ := if summ0.isEmpty then summarize link else summ0
          some { id := wfItemId (dateStr d) v.name title, date := dateStr d,
                 name := title.take 120, vendor := v.name, type := tp, summary := summ,
                 sources := [(v.name ++ " source".toList, link)],
                 impact := v.impact, risk := v.risk, audience := v.audience, tags := [] }

/-- The nested vendor/feed/entry loops of the workflow main, accumulating
`items` (no dedup at this stage). -/
def wfCollect (parse : List Char → Option Int) (summarize : List Char → List Char)
    (now days : Int) (vendors : List Vendor) : List Item :=
  vendors.foldl
    (fun acc v =>
      v.feeds.foldl
        (fun acc feed =>
          feed.foldl
            (fun acc e =>
              match wfBuild parse summarize now days v (wfKws v.keywords) e with
              | none => acc
              | some it => acc ++ [it])
            acc)
        acc)
    []

/-- Comparator of `sorted(items, key=lambda x: (x["date"], x["vendor"]),
reverse=True)`: stable descending sort on the key tuple, i.e. the stable
sort with "key of the left ≥ key of the right" in lexicographic tuple
order (Python compares tuples componentwise: first keys by `<`/`==`, then
second keys). -/
def wfLe (a b : Item) : Bool :=
  if a.date = b.date then strLe b.vendor a.vendor else strLt b.date a.date

def wfGeRel (a b : Item) : Prop := wfLe a b = true

instance : DecidableRel wfGeRel := fun a b => instDecidableEqBool (wfLe a b) true

/-!
### The workflow dedup loop (lines 128-135)

```python
seen = set()
dedup = []
for it in sorted(items, key=lambda x: (x["date"], x["vendor"]), reverse=True):
    key = (it["vendor"], it["name"])
    if key in seen: continue
    seen.add(key)
    dedup.append(it)
```
-/
def wfDedupStep (st : List (List Char × List Char) × List Item) (it : Item) :
    List (List Char × List Char) × List Item :=
  if (it.vendor, it.name) ∈ st.1 then st
  else ((it.vendor, it.name) :: st.1, st.2 ++ [it])

/-- The full workflow run (pure core of `main`): collect, sort by
`(date, vendor)` descending, dedup by `(vendor, name)`, truncate to `top`. -/
def wfRun (parse : List Char → Option Int) (summarize : List Char → List Char)
    (now days : Int) (top : Nat) (vendors : List Vendor) : List Item :=
  let items := wfCollect parse summarize now days vendors
  let dedup := ((items.insertionSort wfGeRel).foldl wfDedupStep ([], [])).2
  dedup.take top

/-!
### `load_existing` (scripts variant, lines 87-93)

```python
def load_existing(path):
    if not path or not os.path.exists(path): return []
    try:
        j = json.load(open(path, "r", encoding="utf-8"))
        return j if isinstance(j, list) else j.get("items", [])
    except Exception:
        return []
```
The abstract input is `none` when the path is empty, the file is missing,
or opening / JSON-decoding raises (all the paths that end in `return []`
before the `isinstance` dispatch), and `some j` when decoding produced the
JSON value `j`.  For a decoded value that is neither a list nor a dict,
`j.get` raises `AttributeError`, which the `except` turns into `[]`.
-/
inductive Json where
  | jnull
  | jbool (b : Bool)
  | jnum (n : Int)
  | jstr (s : List Char)
  | jarr (xs : List Json)
  | jobj (kvs : List (List Char × Json))

/-- Python `dict.get` (dict keys are unique, so first match suffices). -/
def jlookup (k : List Char) : List (List Char × Json) → Option Json
  | [] => none
  | (k', v) :: rest => if k' = k then some v else jlookup k rest

def load_existing (file : Option Json) : Json :=
  match file with
  | none => Json.jarr []
  | some (Json.jarr xs) => Json.jarr xs
  | some (Json.jobj kvs) => (jlookup "items".toList kvs).getD (Json.jarr [])
  | some _ => Json.jarr []

/-!
### Spec-side predicates used to state claims

`SlugShape s` renders the spec's description of a slug: the output of
"lower-casing, collapsing each run of non-alphanumeric characters to a
single separator, trimming separators" consists of lower-case
alphanumerics and single separators, with no separator at either end and
no two adjacent separators.
-/
def SlugShape (s : List Char) : Prop :=
  (∀ c ∈ s, isAlnumLower c = true ∨ c = '-') ∧
  s.head? ≠ some '-' ∧
  s.getLast? ≠ some '-' ∧
  s.Chain' fun x y => ¬(x = '-' ∧ y = '-')

/-- The sources list every freshly built item carries: exactly one
`{title, url}` pair, whose title is `f"{vendor} source"` and whose url is
the origin entry's resolved link. -/
def SingleSource (it : Item) : Prop :=
  ∃ u, it.sources = [(it.vendor ++ " source".toList, u)]

/-- Invariant of the scripts run state: the ids of `merged` are pairwise
distinct and each of them is recorded in `seen`. -/
def GoodState (st : SState) : Prop :=
  (st.merged.map (·.id)).Nodup ∧ ∀ i ∈ st.merged.map (·.id), i ∈ st.seen

/-- How a scripts run state evolves across loop iterations: `merged` only
grows at the end, every appended item is freshly built (single source) with
an id that was not in the starting `seen` set, `seen` only grows, and
`GoodState` is preserved. -/
def Extends (st st' : SState) : Prop :=
  (∃ extra, st'.merged = st.merged ++ extra ∧
    ∀ it ∈ extra, SingleSource it ∧ it.id ∉ st.seen) ∧
  (∀ x ∈ st.seen, x ∈ st'.seen) ∧
  (GoodState st → GoodState st')

/-!
### Concrete fixtures

Inputs used by the concrete (witness / counterexample) theorems below.
`parseW` is a sample free-text date parser knowing two date strings;
`summW` is a sample summariser.
-/

def parseW : List Char → Option Int := fun s =>
  if s = "d1".toList then some 0
  else if s = "dP".toList then some 1704067200
  else none

def summW : List Char → List Char := fun _ => []

/-- Feed entry with title `"mcp!"`. -/
def eA : Entry :=
  { title := some "mcp!".toList, link := some "https://x/a".toList,
    published := some (.fstr "d1".toList), summary := some "mcp news".toList }

/-- Feed entry with title `"mcp?"`: a different title (hence a different
dedup key `(vendor, name)` in the workflow variant) with the same slug. -/
def eB : Entry :=
  { title := some "mcp?".toList, link := some "https://x/b".toList,
    published := some (.fstr "d1".toList), summary := some "mcp news".toList }

/-- Feed entry with a resolvable link but no `title` and no `heading`. -/
def eNoTitle : Entry :=
  { link := some "https://x/agent".toList,
    published := some (.fstr "d1".toList), summary := some "mcp news".toList }

/-- `eNoTitle` with a title added; otherwise identical. -/
def eTitled : Entry :=
  { title := some "t".toList, link := some "https://x/agent".toList,
    published := some (.fstr "d1".toList), summary := some "mcp news".toList }

/-- An entry that regenerates the id `"2024-01-01-acme-foo"`. -/
def eAcme : Entry :=
  { title := some "Foo".toList, link := some "https://acme/x".toList,
    published := some (.fstr "dP".toList), summary := some "mcp news".toList }

def vOne : Vendor :=
  { name := "v".toList, audience := "dev".toList, impact := 3, risk := 3,
    keywords := [], feeds := [[eA, eB]] }

def vNoTitle : Vendor :=
  { name := "v".toList, audience := "dev".toList, impact := 3, risk := 3,
    keywords := [], feeds := [[eNoTitle]] }

def vTitled : Vendor :=
  { name := "v".toList, audience := "dev".toList, impact := 3, risk := 3,
    keywords := [], feeds := [[eTitled]] }

def vEncA : Vendor :=
  { name := "a".toList, audience := "dev".toList, impact := 3, risk := 3,
    keywords := [], feeds := [[eA]] }

def vEncB : Vendor :=
  { name := "b".toList, audience := "dev".toList, impact := 3, risk := 3,
    keywords := [], feeds := [[eA]] }

def vColl : Vendor :=
  { name := "v".toList, audience := "dev".toList, impact := 3, risk := 3,
    keywords := [], feeds := [[eA, eA]] }

def vAcme : Vendor :=
  { name := "Acme".toList, audience := "dev".toList, impact := 3, risk := 3,
    keywords := [], feeds := [[eAcme]] }

/-- A prior-snapshot item with id `"2024-01-01-acme-foo"` (the id the
entry `eAcme` would regenerate). -/
def pPrior : Item :=
  { id := "2024-01-01-acme-foo".toList, date := "2024-01-01".toList,
    name := "Foo".toList, vendor := "Acme".toList, type := "launch".toList,
    summary := "old".toList, sources := [("Acme source".toList, "https://acme/x".toList)],
    impact := 3, risk := 3, audience := "dev".toList, tags := [] }

/-- The item the scripts run over `vColl` (entry `eA` scanned twice)
produces. -/
def itColl : Item :=
  { id := "1970-01-01-v-mcp".toList, date := "1970-01-01".toList,
    name := "mcp!".toList, vendor := "v".toList, type := "upgrade".toList,
    summary := "mcp news".toList, sources := [("v source".toList, "https://x/a".toList)],
    impact := 3, risk := 3, audience := "dev".toList, tags := [] }

/-- The item the workflow run over `vNoTitle` (title-less entry)
produces. -/
def itNT : Item :=
  { id := "1970-01-01-v-".toList, date := "1970-01-01".toList,
    name := [], vendor := "v".toList, type := "upgrade".toList,
    summary := "mcp news".toList, sources := [("v source".toList, "https://x/agent".toList)],
    impact := 3, risk := 3, audience := "dev".toList, tags := [] }

/-! ## Order lemmas for the string comparators -/

theorem char_eq_of_toNat_eq {a b : Char} (h : a.toNat = b.toNat) : a = b :=
  Char.eq_of_val_eq (UInt32.eq_of_val_eq (Fin.eq_of_val_eq h))

theorem strLe_cons {a b : Char} {as bs : List Char} :
    strLe (a :: as) (b :: bs) = true ↔
      a.toNat < b.toNat ∨ (a.toNat = b.toNat ∧ strLe as bs = true) := by
  simp only [strLe]
  rcases Nat.lt_trichotomy a.toNat b.toNat with h | h | h
  · rw [if_pos h]; simp [h]
  · rw [if_neg (by omega), if_neg (by omega)]
    constructor
    · intro hr; exact Or.inr ⟨h, hr⟩
    · rintro (hc | ⟨-, hr⟩)
      · omega
      · exact hr
  · rw [if_neg (by omega), if_pos (by omega)]
    constructor
    · intro hf; cases hf
    · rintro (hc | ⟨hc, -⟩) <;> omega

theorem strLt_cons {a b : Char} {as bs : List Char} :
    strLt (a :: as) (b :: bs) = true ↔
      a.toNat < b.toNat ∨ (a.toNat = b.toNat ∧ strLt as bs = true) := by
  simp only [strLt]
  rcases Nat.lt_trichotomy a.toNat b.toNat with h | h | h
  · rw [if_pos h]; simp [h]
  · rw [if_neg (by omega), if_neg (by omega)]
    constructor
    · intro hr; exact Or.inr ⟨h, hr⟩
    · rintro (hc | ⟨-, hr⟩)
      · omega
      · exact hr
  · rw [if_neg (by omega), if_pos (by omega)]
    constructor
    · intro hf; cases hf
    · rintro (hc | ⟨hc, -⟩) <;> omega

theorem strLe_refl : ∀ a : List Char, strLe a a = true
  | [] => rfl
  | _ :: cs => strLe_cons.mpr (Or.inr ⟨rfl, strLe_refl cs⟩)

theorem strLe_total : ∀ a b : List Char, strLe a b = true ∨ strLe b a = true
  | [], _ => Or.inl rfl
  | _ :: _, [] => Or.inr rfl
  | a :: as, b :: bs => by
    rcases Nat.lt_trichotomy a.toNat b.toNat with h | h | h
    · exact Or.inl (strLe_cons.mpr (Or.inl h))
    · rcases strLe_total as bs with ih | ih
      · exact Or.inl (strLe_cons.mpr (Or.inr ⟨h, ih⟩))
      · exact Or.inr (strLe_cons.mpr (Or.inr ⟨h.symm, ih⟩))
    · exact Or.inr (strLe_cons.mpr (Or.inl h))

theorem strLe_trans :
    ∀ a b c : List Char, strLe a b = true → strLe b c = true → strLe a c = true
  | [], _, _, _, _ => rfl
  | _ :: _, [], _, h, _ => by simp [strLe] at h
  | _ :: _, _ :: _, [], _, h => by simp [strLe] at h
  | a :: as, b :: bs, c :: cs, h₁, h₂ => by
    rw [strLe_cons] at h₁ h₂ ⊢
    rcases h₁ with h₁ | ⟨e₁, r₁⟩ <;> rcases h₂ with h₂ | ⟨e₂, r₂⟩
    · exact Or.inl (by omega)
    · exact Or.inl (by omega)
    · exact Or.inl (by omega)
    · exact Or.inr ⟨by omega, strLe_trans as bs cs r₁ r₂⟩

theorem strLt_trans :
    ∀ a b c : List Char, strLt a b = true → strLt b c = true → strLt a c = true
  | [], [], _, h, _ => by simp [strLt] at h
  | [], _ :: _, [], _, h => by simp [strLt] at h
  | [], _ :: _, _ :: _, _, _ => rfl
  | _ :: _, [], _, h, _ => by simp [strLt] at h
  | _ :: _, _ :: _, [], _, h => by simp [strLt] at h
  | a :: as, b :: bs, c :: cs, h₁, h₂ => by
    rw [strLt_cons] at h₁ h₂ ⊢
    rcases h₁ with h₁ | ⟨e₁, r₁⟩ <;> rcases h₂ with h₂ | ⟨e₂, r₂⟩
    · exact Or.inl (by omega)
    · exact Or.inl (by omega)
    · exact Or.inl (by omega)
    · exact Or.inr ⟨by omega, strLt_trans as bs cs r₁ r₂⟩

theorem strLt_of_ne :
    ∀ a b : List Char, a ≠ b → strLt a b = true ∨ strLt b a = true
  | [], [], h => absurd rfl h
  | [], _ :: _, _ => Or.inl rfl
  | _ :: _, [], _ => Or.inr rfl
  | a :: as, b :: bs, h => by
    rcases Nat.lt_trichotomy a.toNat b.toNat with hc | hc | hc
    · exact Or.inl (strLt_cons.mpr (Or.inl hc))
    · have hab : a = b := char_eq_of_toNat_eq hc
      subst hab
      have hne : as ≠ bs := fun hh => h (by rw [hh])
      rcases strLt_of_ne as bs hne with ih | ih
      · exact Or.inl (strLt_cons.mpr (Or.inr ⟨rfl, ih⟩))
      · exact Or.inr (strLt_cons.mpr (Or.inr ⟨rfl, ih⟩))
    · exact Or.inr (strLt_cons.mpr (Or.inl hc))

theorem strLe_of_strLt : ∀ a b : List Char, strLt a b = true → strLe a b = true
  | [], _, _ => rfl
  | _ :: _, [], h => by simp [strLt] at h
  | a :: as, b :: bs, h => by
    rw [strLt_cons] at h
    rcases h with h | ⟨e, r⟩
    · exact strLe_cons.mpr (Or.inl h)
    · exact strLe_cons.mpr (Or.inr ⟨e, strLe_of_strLt as bs r⟩)

theorem strLt_irrefl : ∀ a : List Char, strLt a a = false
  | [] => rfl
  | c :: cs => by
    have ih := strLt_irrefl cs
    by_contra hc
    have : strLt (c :: cs) (c :: cs) = true := by
      cases h : strLt (c :: cs) (c :: cs)
      · exact absurd h hc
      · rfl
    rcases strLt_cons.mp this with h | ⟨-, h⟩
    · omega
    · rw [ih] at h; cases h

theorem strLt_ne {a b : List Char} (h : strLt a b = true) : a ≠ b := by
  intro hab
  subst hab
  rw [strLt_irrefl] at h
  cases h

/-! ## The sort comparators are total preorders -/

theorem dateGeRel_isTotal : IsTotal Item dateGeRel :=
  ⟨fun a b => strLe_total b.date a.date⟩

theorem dateGeRel_isTrans : IsTrans Item dateGeRel :=
  ⟨fun _ _ _ h₁ h₂ => strLe_trans _ _ _ h₂ h₁⟩

theorem wfGeRel_isTotal : IsTotal Item wfGeRel := by
  constructor
  intro a b
  unfold wfGeRel wfLe
  by_cases h : a.date = b.date
  · rw [if_pos h, if_pos h.symm]
    exact strLe_total b.vendor a.vendor
  · rw [if_neg h, if_neg (fun hh => h hh.symm)]
    exact (strLt_of_ne b.date a.date (fun hh => h hh.symm)).imp id id

theorem wfGeRel_isTrans : IsTrans Item wfGeRel := by
  constructor
  intro a b c h₁ h₂
  unfold wfGeRel wfLe at h₁ h₂ ⊢
  by_cases hab : a.date = b.date <;> by_cases hbc : b.date = c.date
  · rw [if_pos hab] at h₁
    rw [if_pos hbc] at h₂
    rw [if_pos (hab.trans hbc)]
    exact strLe_trans _ _ _ h₂ h₁
  · rw [if_pos hab] at h₁
    rw [if_neg hbc] at h₂
    have hacne : a.date ≠ c.date := fun hh => strLt_ne h₂ (by rw [← hh, hab])
    rw [if_neg hacne, hab]
    exact h₂
  · rw [if_neg hab] at h₁
    rw [if_pos hbc] at h₂
    have hacne : a.date ≠ c.date := fun hh => strLt_ne h₁ (hbc.trans hh.symm)
    rw [if_neg hacne, ← hbc]
    exact h₁
  · rw [if_neg hab] at h₁
    rw [if_neg hbc] at h₂
    have hca : strLt c.date a.date = true := strLt_trans _ _ _ h₂ h₁
    rw [if_neg fun hh => strLt_ne hca hh.symm]
    exact hca

/-! ## Claim C7: the time-window boundary -/

/-- Claim C7 (confirmed).  For every window size `days` (as the comparison
is on integers, for every integer `days`) and every "now": an entry whose
resolved timestamp is exactly `days` days before now passes `in_window`,
one exactly `days + 1` days before now does not, and an entry with no
resolvable timestamp never passes. -/
theorem in_window_boundary (now days : Int) :
    in_window now (some (now - days * 86400)) days = true ∧
    in_window now (some (now - (days + 1) * 86400)) days = false ∧
    in_window now none days = false := by
  refine ⟨?_, ?_, rfl⟩
  · simp only [in_window]
    rw [show now - (now - days * 86400) = days * 86400 by ring,
      Int.mul_fdiv_cancel _ (by norm_num)]
    simp
  · simp only [in_window]
    rw [show now - (now - (days + 1) * 86400) = (days + 1) * 86400 by ring,
      Int.mul_fdiv_cancel _ (by norm_num)]
    simp

/-! ## Claim C1: classifier priority -/

/-- Claim C1 (code_bug).  On the text `"deprecated pricing"`, which
contains both a deprecation substring and a pricing substring, the scripts
variant's `classify` returns `"deprecation"` exactly as the claim states,
but the workflow variant's classifier (sequential overwriting `if`s,
checked launch → deprecation → pricing) returns `"pricing"`: the later
pricing check overwrites the deprecation label, contradicting the claimed
fixed priority order. -/
theorem classifier_priority_divergence :
    classify "deprecated pricing".toList = "deprecation".toList ∧
    wfClassify "deprecated pricing".toList = "pricing".toList :=
  ⟨by decide, by decide⟩

/-! ## Slug structure lemmas (for Claim C4) -/

theorem dash_not_alnum : isAlnumLower '-' = false := by decide

theorem collapse_chars : ∀ l : List Char, ∀ c ∈ collapse l,
    isAlnumLower c = true ∨ c = '-'
  | [], c, hc => by cases hc
  | [a], c, hc => by
    by_cases h : isAlnumLower a = true
    · rw [show collapse [a] = [a] by simp [collapse, h]] at hc
      rcases List.mem_singleton.mp hc with rfl
      exact Or.inl h
    · rw [show collapse [a] = ['-'] by simp [collapse, h]] at hc
      rcases List.mem_singleton.mp hc with rfl
      exact Or.inr rfl
  | a :: b :: rest, c, hc => by
    by_cases h : isAlnumLower a = true
    · rw [show collapse (a :: b :: rest) = a :: collapse (b :: rest) by
        simp [collapse, h]] at hc
      rcases List.mem_cons.mp hc with rfl | hc
      · exact Or.inl h
      · exact collapse_chars (b :: rest) c hc
    · by_cases hb : isAlnumLower b = true
      · rw [show collapse (a :: b :: rest) = '-' :: collapse (b :: rest) by
          simp [collapse, h, hb]] at hc
        rcases List.mem_cons.mp hc with rfl | hc
        · exact Or.inr rfl
        · exact collapse_chars (b :: rest) c hc
      · rw [show collapse (a :: b :: rest) = collapse (b :: rest) by
          simp [collapse, h, hb]] at hc
        exact collapse_chars (b :: rest) c hc

theorem collapse_cons_alnum {a : Char} (h : isAlnumLower a = true) :
    ∀ l : List Char, collapse (a :: l) = a :: collapse l
  | [] => by simp [collapse, h]
  | _ :: _ => by simp [collapse, h]

theorem alnum_ne_dash {c : Char} (h : isAlnumLower c = true) : c ≠ '-' := by
  intro hc
  rw [hc, dash_not_alnum] at h
  cases h

theorem collapse_chain :
    ∀ l : List Char, (collapse l).Chain' fun x y => ¬(x = '-' ∧ y = '-')
  | [] => List.chain'_nil
  | [a] => by
    by_cases h : isAlnumLower a = true <;> simp [collapse, h]
  | a :: b :: rest => by
    have ih := collapse_chain (b :: rest)
    by_cases h : isAlnumLower a = true
    · rw [collapse_cons_alnum h]
      refine List.chain'_cons'.mpr ⟨fun y _ hxy => alnum_ne_dash h hxy.1, ih⟩
    · by_cases hb : isAlnumLower b = true
      · rw [show collapse (a :: b :: rest) = '-' :: collapse (b :: rest) by
          simp [collapse, h, hb]]
        refine List.chain'_cons'.mpr ⟨fun y hy hxy => ?_, ih⟩
        rw [collapse_cons_alnum hb] at hy
        simp only [List.head?_cons, Option.mem_def, Option.some.injEq] at hy
        exact alnum_ne_dash hb (hy ▸ hxy.2)
      · rw [show collapse (a :: b :: rest) = collapse (b :: rest) by
          simp [collapse, h, hb]]
        exact ih

theorem stripDash_within (l : List Char) : stripDash l <:+: l :=
  List.IsInfix.trans ( List.IsPrefix.isInfix ( List.rdropWhile_prefix _ _))
    ( List.IsSuffix.isInfix (List.dropWhile_suffix _))

theorem stripDash_head {l : List Char} : (stripDash l).head? ≠ some '-' := by
  intro hc
  have hne : stripDash l ≠ [] := by
    intro h
    rw [h] at hc
    cases hc
  obtain ⟨t, ht⟩ := List.rdropWhile_prefix (· == '-') (l.dropWhile (· == '-'))
  have hd : (l.dropWhile (· == '-')).head? = some '-' := by
    rw [← ht, List.head?_append]
    unfold stripDash at hc
    rw [hc]
    rfl
  have hdne : l.dropWhile (· == '-') ≠ [] := by
    intro h
    rw [h] at hd
    cases hd
  have := List.head_dropWhile_not (· == '-') l hdne
  rw [List.head?_eq_head hdne] at hd
  simp only [Option.some.injEq] at hd
  rw [hd] at this
  simp at this

theorem stripDash_getLast {l : List Char} : (stripDash l).getLast? ≠ some '-' := by
  intro hc
  have hne : stripDash l ≠ [] := by
    intro h
    rw [h] at hc
    cases hc
  unfold stripDash at hc hne
  have hlast := List.rdropWhile_last_not (· == '-') (l.dropWhile (· == '-')) hne
  rw [List.getLast?_eq_getLast _ hne] at hc
  simp only [Option.some.injEq] at hc
  rw [hc] at hlast
  simp at hlast

/-- The slug produced by `slugOf` has exactly the shape the spec describes
for a slug (lower-case alphanumerics, single separators, trimmed). -/
theorem slugOf_shape (s : List Char) : SlugShape (slugOf s) := by
  refine ⟨fun c hc => ?_, stripDash_head, stripDash_getLast, ?_⟩
  · exact collapse_chars _ c ((stripDash_within _).subset hc)
  · exact List.Chain'.infix (collapse_chain (lowerStr s)) (stripDash_within _)

/-! ## Claim C4: id structure -/

/-- Claim C4 (corrected), counterexample part.  In the workflow variant
the vendor is only lower-cased, never slug-collapsed: the id built for
vendor `"A B"` contains a raw space, so the claim's "slugifying both the
vendor and the title (collapsing each run of non-alphanumeric characters
to a single separator …)" is false for this code. -/
theorem wf_vendor_not_slugged :
    wfItemId "2024-01-01".toList "A B".toList "t".toList = "2024-01-01-a b-t".toList ∧
    ' ' ∈ wfItemId "2024-01-01".toList "A B".toList "t".toList ∧
    ¬(isAlnumLower ' ' = true ∨ ' ' = '-') :=
  ⟨by decide, by decide, by decide⟩

/-- Claim C4 (corrected), amended.  Both ids are pure functions of
`(date string, vendor, title)` of the shape `date ++ "-" ++ vendor part ++
"-" ++ title part`.  In the scripts variant both parts are true slugs
(`SlugShape`), but only the title slug is length-capped (at 50); in the
workflow variant the title part is a slug capped at 40 while the vendor
part is merely the lower-cased vendor. -/
theorem id_structure :
    (∀ d v t : List Char, ∃ vs ts, SlugShape vs ∧ SlugShape ts ∧
      safe_id d v t = d ++ '-' :: vs ++ '-' :: ts.take 50) ∧
    (∀ d v t : List Char, ∃ ts, SlugShape ts ∧
      wfItemId d v t = d ++ '-' :: lowerStr v ++ '-' :: ts.take 40) :=
  ⟨fun _ v t => ⟨slugOf v, slugOf t, slugOf_shape v, slugOf_shape t, rfl⟩,
   fun _ _ t => ⟨slugOf t, slugOf_shape t, rfl⟩⟩

/-! ## Claim C5: timestamp resolution order -/

/-- Claim C5 (corrected), counterexample part.  An entry carrying both the
plain string field `published` and the pre-parsed `published_parsed`
structured value resolves through the *string*: `pick_date` evaluates
`entry.get(k) or entry.get(f"{k}_parsed")`, so the plain field is fetched
first and the structured value (here denoting instant `999`) is ignored,
contradicting the claim that "the pre-parsed structured time value is
checked first". -/
theorem pick_date_string_beats_struct :
    pick_date (fun s => if s = "2024-01-02".toList then some 1704153600 else none)
      { published := some (.fstr "2024-01-02".toList),
        published_parsed := some (.fstruct 999) } = some 1704153600 ∧
    (1704153600 : Int) ≠ 999 :=
  ⟨by decide, by decide⟩

/-- Claim C5 (corrected), amended.  For each of the four fields, the plain
field value is fetched first and the `_parsed` structured value is used
only when the plain field is absent or falsy; a structured value is used
directly and a string value is parsed by the free-text parser; the first
field to succeed wins, and if all four fail, the JSON-feed field
`date_published` is the final fallback before the timestamp is deemed
absent. -/
theorem pick_date_resolution_order (parse : List Char → Option Int) (e : Entry) :
    (∀ s t, e.published = some (.fstr s) → s ≠ [] → parse s = some t →
      pick_date parse e = some t) ∧
    (∀ t, e.published = none → e.published_parsed = some (.fstruct t) →
      pick_date parse e = some t) ∧
    (tryField parse e.published e.published_parsed = none →
      tryField parse e.updated e.updated_parsed = none →
      tryField parse e.date e.date_parsed = none →
      tryField parse e.created e.created_parsed = none →
      pick_date parse e =
        match e.date_published with
        | some s => norm_date parse s
        | none => none) := by
  refine ⟨?_, ?_, ?_⟩
  · intro s t hp hs hparse
    have hs' : s.isEmpty = false := by
      cases s
      · exact absurd rfl hs
      · rfl
    simp [pick_date, tryField, pyOrF, fvTruthy, hp, hs', norm_date, hparse]
  · intro t hp hpp
    simp [pick_date, tryField, pyOrF, fvTruthy, hp, hpp]
  · intro h₁ h₂ h₃ h₄
    simp [pick_date, h₁, h₂, h₃, h₄]

/-- Witness for `pick_date_resolution_order`, exercising all three
conjuncts at concrete entries. -/
theorem pick_date_resolution_order_witness :
    pick_date (fun s => if s = "x".toList then some 5 else none)
      { published := some (.fstr "x".toList) } = some 5 ∧
    pick_date (fun _ => none) { published_parsed := some (.fstruct 7) } = some 7 ∧
    pick_date (fun _ => none) { date_published := some "y".toList } = none := by
  refine ⟨?_, ?_, ?_⟩
  · exact (pick_date_resolution_order (fun s => if s = "x".toList then some 5 else none)
      { published := some (.fstr "x".toList) }).1 "x".toList 5 rfl (by decide) (by decide)
  · exact (pick_date_resolution_order (fun _ => none)
      { published_parsed := some (.fstruct 7) }).2.1 7 rfl rfl
  · exact ((pick_date_resolution_order (fun _ => none)
      { date_published := some "y".toList }).2.2 rfl rfl rfl rfl).trans (by decide)

/-! ## The scripts run-state machinery (for Claims C2, C6, C10) -/

theorem candItem_sources {parse : List Char → Option Int}
    {summarize : List Char → List Char} {now days : Int} {v : Vendor}
    {kws : List (List Char)} {e : Entry} {it : Item}
    (h : candItem parse summarize now days v kws e = some it) : SingleSource it := by
  simp only [candItem] at h
  split at h
  · cases h
  · split at h
    · cases h
    · split at h
      · cases h
      · split at h
        · cases h
        · cases h
          exact ⟨_, rfl⟩

theorem extends_refl (st : SState) : Extends st st :=
  ⟨⟨[], (List.append_nil _).symm, fun it h => absurd h (List.not_mem_nil it)⟩,
   fun _ h => h, id⟩

theorem extends_trans {s t u : SState} (h₁ : Extends s t) (h₂ : Extends t u) :
    Extends s u := by
  obtain ⟨⟨e₁, hm₁, he₁⟩, hs₁, hg₁⟩ := h₁
  obtain ⟨⟨e₂, hm₂, he₂⟩, hs₂, hg₂⟩ := h₂
  refine ⟨⟨e₁ ++ e₂, by rw [hm₂, hm₁, List.append_assoc], fun it hit => ?_⟩,
    fun x hx => hs₂ x (hs₁ x hx), fun g => hg₂ (hg₁ g)⟩
  rcases List.mem_append.mp hit with h | h
  · exact he₁ it h
  · exact ⟨(he₂ it h).1, fun hc => (he₂ it h).2 (hs₁ _ hc)⟩

theorem scriptsStep_extends (parse : List Char → Option Int)
    (summarize : List Char → List Char) (now days : Int) (v : Vendor)
    (kws : List (List Char)) (st : SState) (e : Entry) :
    Extends st (scriptsStep parse summarize now days v kws st e) := by
  unfold scriptsStep
  cases hc : candItem parse summarize now days v kws e with
  | none => exact extends_refl st
  | some it =>
    dsimp only
    by_cases hmem : it.id ∈ st.seen
    · rw [if_pos hmem]
      exact extends_refl st
    · rw [if_neg hmem]
      refine ⟨⟨[it], rfl, fun x hx => ?_⟩,
        fun x hx => List.mem_cons_of_mem _ hx, fun hg => ?_⟩
      · rcases List.mem_singleton.mp hx with rfl
        exact ⟨candItem_sources hc, hmem⟩
      · obtain ⟨hnd, hsub⟩ := hg
        constructor
        · rw [List.map_append]
          refine hnd.append (List.nodup_singleton _) fun i hi hi' => ?_
          rcases List.mem_singleton.mp hi' with rfl
          exact hmem (hsub _ hi)
        · intro i hi
          rw [List.map_append] at hi
          rcases List.mem_append.mp hi with h | h
          · exact List.mem_cons_of_mem _ (hsub i h)
          · rcases List.mem_singleton.mp h with rfl
            exact List.mem_cons_self _ _

theorem foldl_extends {β : Type} (f : SState → β → SState)
    (hf : ∀ st b, Extends st (f st b)) :
    ∀ (l : List β) (st : SState), Extends st (l.foldl f st)
  | [], st => extends_refl st
  | b :: bs, st => extends_trans (hf st b) (foldl_extends f hf bs (f st b))

theorem scriptsCollect_extends (parse : List Char → Option Int)
    (summarize : List Char → List Char) (now days : Int)
    (existing : List Item) (vendors : List Vendor) :
    Extends { merged := existing, seen := existing.map (·.id) }
      (scriptsCollect parse summarize now days existing vendors) := by
  unfold scriptsCollect
  refine foldl_extends _ (fun st v => ?_) vendors _
  refine foldl_extends _ (fun st feed => ?_) v.feeds st
  exact foldl_extends _ (fun st e =>
    scriptsStep_extends parse summarize now days v (scriptsKws v.keywords) st e) feed st

/-! ## Claim C2: dedup invariant -/

/-- Claim C2 (corrected), counterexample part.  Two runs whose outputs
contain two items with the same id: the workflow variant dedups on
`(vendor, name)`, so the entries titled `"mcp!"` and `"mcp?"` — different
names but identical slugs — both survive with the id
`"1970-01-01-v-mcp"`; and the scripts variant carries every prior-snapshot
item into the output, so a prior snapshot that itself contains duplicate
ids yields duplicate ids. -/
theorem output_dup_ids :
    ¬ ((wfRun parseW summW 0 30 12 [vOne]).map (·.id)).Nodup ∧
    ¬ ((scriptsRun parseW summW 0 30 60 [pPrior, pPrior] []).map (·.id)).Nodup :=
  ⟨by decide, by decide⟩

/-- Claim C2 (corrected), amended.  In the scripts variant, whenever the
loaded prior snapshot's items have pairwise-distinct ids, the output of
the run (after intra-run dedup, merge and truncation) has
pairwise-distinct ids. -/
theorem scripts_output_ids_nodup (parse : List Char → Option Int)
    (summarize : List Char → List Char) (now days : Int) (top : Nat)
    (existing : List Item) (vendors : List Vendor)
    (h : (existing.map (·.id)).Nodup) :
    ((scriptsRun parse summarize now days top existing vendors).map (·.id)).Nodup := by
  have hext := scriptsCollect_extends parse summarize now days existing vendors
  have hgood : GoodState { merged := existing, seen := existing.map (·.id) } :=
    ⟨h, fun i hi => hi⟩
  have hnd := (hext.2.2 hgood).1
  have hperm : List.Perm
      (((scriptsCollect parse summarize now days existing vendors).merged.insertionSort
        dateGeRel).map (·.id))
      ((scriptsCollect parse summarize now days existing vendors).merged.map (·.id)) :=
    (List.perm_insertionSort _ _).map _
  have hnd' := (hperm.nodup_iff).mpr hnd
  unfold scriptsRun
  rw [List.map_take]
  exact List.Sublist.nodup (List.take_sublist _ _) hnd'

/-- Witness for `scripts_output_ids_nodup` on a run with an intra-run id
collision (the entry `eA` appears twice) and a prior item. -/
theorem scripts_output_ids_nodup_witness :
    (([pPrior].map (·.id)).Nodup) ∧
    ((scriptsRun parseW summW 0 30 60 [pPrior] [vColl]).map (·.id)).Nodup :=
  ⟨by decide, scripts_output_ids_nodup parseW summW 0 30 60 [pPrior] [vColl] (by decide)⟩

/-! ## Claim C6: incremental cross-run dedup -/

/-- Claim C6 (confirmed).  In incremental mode, every prior item is in the
sorted merged output (it can only be dropped by the final `take top`
truncation, as the last conjunct makes explicit), and any item of the
merged list whose id already occurs among the prior ids *is* one of the
prior items — a new entry generating an already-present id is discarded,
never re-added. -/
theorem incremental_merge_retains_prior (parse : List Char → Option Int)
    (summarize : List Char → List Char) (now days : Int) (top : Nat)
    (existing : List Item) (vendors : List Vendor) (p : Item) (hp : p ∈ existing) :
    p ∈ ((scriptsCollect parse summarize now days existing vendors).merged.insertionSort
        dateGeRel) ∧
    (∀ it ∈ (scriptsCollect parse summarize now days existing vendors).merged,
      it.id ∈ existing.map (·.id) → it ∈ existing) ∧
    scriptsRun parse summarize now days top existing vendors =
      ((scriptsCollect parse summarize now days existing vendors).merged.insertionSort
        dateGeRel).take top := by
  obtain ⟨⟨extra, hm, hextra⟩, hseen, hgood⟩ :=
    scriptsCollect_extends parse summarize now days existing vendors
  refine ⟨?_, ?_, rfl⟩
  · rw [List.mem_insertionSort, hm]
    exact List.mem_append_left _ hp
  · intro it hit hid
    rw [hm] at hit
    rcases List.mem_append.mp hit with h | h
    · exact h
    · exact absurd hid ((hextra it h).2)

/-- Witness for `incremental_merge_retains_prior`: the prior snapshot holds
the item with id `"2024-01-01-acme-foo"` and the run scans an entry that
would regenerate exactly that id. -/
theorem incremental_merge_retains_prior_witness :
    pPrior ∈ [pPrior] ∧
    (pPrior ∈ ((scriptsCollect parseW summW 1704067200 30 [pPrior] [vAcme]).merged.insertionSort
        dateGeRel) ∧
     (∀ it ∈ (scriptsCollect parseW summW 1704067200 30 [pPrior] [vAcme]).merged,
       it.id ∈ [pPrior].map (·.id) → it ∈ [pPrior]) ∧
     scriptsRun parseW summW 1704067200 30 60 [pPrior] [vAcme] =
       ((scriptsCollect parseW summW 1704067200 30 [pPrior] [vAcme]).merged.insertionSort
         dateGeRel).take 60) :=
  ⟨by decide,
   incremental_merge_retains_prior parseW summW 1704067200 30 60 [pPrior] [vAcme] pPrior
     (by decide)⟩

/-! ## Claim C3: sort invariant and stability -/

theorem wfGeRel_to_dateGeRel {a b : Item} (h : wfGeRel a b) : dateGeRel a b := by
  unfold wfGeRel wfLe at h
  unfold dateGeRel
  by_cases hd : a.date = b.date
  · rw [hd]
    exact strLe_refl _
  · rw [if_neg hd] at h
    exact strLe_of_strLt _ _ h

/-- The dedup loop of the workflow main only appends a subsequence of its
input to the accumulator. -/
theorem wfDedup_decompose :
    ∀ (l : List Item) (s : List (List Char × List Char) × List Item),
      ∃ u, (l.foldl wfDedupStep s).2 = s.2 ++ u ∧ u <+ l
  | [], s => ⟨[], (List.append_nil _).symm, List.nil_sublist _⟩
  | x :: xs, s => by
    rw [List.foldl_cons]
    by_cases hx : (x.vendor, x.name) ∈ s.1
    · have hstep : wfDedupStep s x = s := by
        unfold wfDedupStep
        rw [if_pos hx]
      rw [hstep]
      obtain ⟨u, hu, hsub⟩ := wfDedup_decompose xs s
      exact ⟨u, hu, hsub.cons x⟩
    · have hstep : wfDedupStep s x = ((x.vendor, x.name) :: s.1, s.2 ++ [x]) := by
        unfold wfDedupStep
        rw [if_neg hx]
      rw [hstep]
      obtain ⟨u, hu, hsub⟩ := wfDedup_decompose xs ((x.vendor, x.name) :: s.1, s.2 ++ [x])
      refine ⟨x :: u, ?_, hsub.cons₂ x⟩
      rw [hu]
      simp

/-- Stability of the scripts sort: filtering the sorted list to any one
date gives exactly the same list as filtering the unsorted (encounter
order) list. -/
theorem insertionSort_filter_date (l : List Item) (dstr : List Char) :
    (l.insertionSort dateGeRel).filter (fun it => it.date == dstr) =
      l.filter (fun it => it.date == dstr) := by
  have hsubl : l.filter (fun it => it.date == dstr) <+ l := List.filter_sublist l
  have hpair : (l.filter (fun it => it.date == dstr)).Pairwise dateGeRel := by
    refine List.pairwise_of_forall_mem_list fun a ha b hb => ?_
    have hda := List.mem_filter.mp ha
    have hdb := List.mem_filter.mp hb
    simp only [beq_iff_eq] at hda hdb
    unfold dateGeRel
    rw [hda.2, hdb.2]
    exact strLe_refl _
  have hS : l.filter (fun it => it.date == dstr) <+ l.insertionSort dateGeRel :=
    List.sublist_insertionSort hpair hsubl
  have hperm : List.Perm ((l.insertionSort dateGeRel).filter (fun it => it.date == dstr))
      (l.filter (fun it => it.date == dstr)) :=
    (List.perm_insertionSort _ _).filter _
  have hS' : l.filter (fun it => it.date == dstr) <+
      (l.insertionSort dateGeRel).filter (fun it => it.date == dstr) := by
    have hff := hS.filter (fun it => it.date == dstr)
    rwa [List.filter_eq_self.mpr (fun a ha => (List.mem_filter.mp ha).2)] at hff
  exact (hS'.eq_of_length hperm.length_eq.symm).symm

/-- Claim C3 (corrected), counterexample part.  Two items with the same
date, encountered with vendor `"a"` first and vendor `"b"` second, appear
in the workflow output with `"b"` first: the workflow sorts on the pair
`(date, vendor)` descending, so equal-date ties are ordered by vendor
descending rather than by encounter order. -/
theorem wf_tie_not_encounter_order :
    (wfCollect parseW summW 0 30 [vEncA, vEncB]).map (·.vendor) =
      ["a".toList, "b".toList] ∧
    ((wfCollect parseW summW 0 30 [vEncA, vEncB]).map (·.date)).eraseDups =
      ["1970-01-01".toList] ∧
    (wfRun parseW summW 0 30 12 [vEncA, vEncB]).map (·.vendor) =
      ["b".toList, "a".toList] :=
  ⟨by decide, by decide, by decide⟩

/-- Claim C3 (corrected), amended.  The scripts output is sorted by date
descending and is fully stable: per date, the sorted merged list carries
exactly the encounter-order sublist, and the truncated output a prefix of
it in the same order.  The workflow output is also non-increasing by date,
but its equal-date ties are ordered by vendor descending (then encounter
order), not by encounter order alone. -/
theorem output_sorted_stable :
    (∀ (parse : List Char → Option Int) (summarize : List Char → List Char)
      (now days : Int) (top : Nat) (existing : List Item) (vendors : List Vendor),
      (scriptsRun parse summarize now days top existing vendors).Pairwise dateGeRel ∧
      (∀ dstr, ((scriptsCollect parse summarize now days existing vendors).merged.insertionSort
          dateGeRel).filter (fun it => it.date == dstr) =
        (scriptsCollect parse summarize now days existing vendors).merged.filter
          (fun it => it.date == dstr)) ∧
      (∀ dstr, (scriptsRun parse summarize now days top existing vendors).filter
          (fun it => it.date == dstr) <+
        (scriptsCollect parse summarize now days existing vendors).merged.filter
          (fun it => it.date == dstr))) ∧
    (∀ (parse : List Char → Option Int) (summarize : List Char → List Char)
      (now days : Int) (top : Nat) (vendors : List Vendor),
      (wfRun parse summarize now days top vendors).Pairwise dateGeRel) := by
  constructor
  · intro parse summarize now days top existing vendors
    haveI := dateGeRel_isTotal
    haveI := dateGeRel_isTrans
    refine ⟨?_, fun dstr => insertionSort_filter_date _ _, fun dstr => ?_⟩
    · exact List.Pairwise.sublist (List.take_sublist _ _)
        (List.sorted_insertionSort dateGeRel _)
    · have h₁ : (scriptsRun parse summarize now days top existing vendors).filter
          (fun it => it.date == dstr) <+
          ((scriptsCollect parse summarize now days existing vendors).merged.insertionSort
            dateGeRel).filter (fun it => it.date == dstr) :=
        (List.take_sublist _ _).filter _
      rwa [insertionSort_filter_date] at h₁
  · intro parse summarize now days top vendors
    haveI := wfGeRel_isTotal
    haveI := wfGeRel_isTrans
    have hsorted : ((wfCollect parse summarize now days vendors).insertionSort
        wfGeRel).Pairwise wfGeRel :=
      List.sorted_insertionSort wfGeRel _
    obtain ⟨u, hu, hsub⟩ := wfDedup_decompose
      ((wfCollect parse summarize now days vendors).insertionSort wfGeRel) ([], [])
    have hded : (wfRun parse summarize now days top vendors).Pairwise wfGeRel := by
      simp only [wfRun]
      rw [hu]
      simp only [List.nil_append]
      exact List.Pairwise.sublist ((List.take_sublist _ _).trans hsub) hsorted
    exact hded.imp fun h => wfGeRel_to_dateGeRel h

/-! ## Claim C10: one source pair per constructed item -/

theorem wfBuild_sources {parse : List Char → Option Int}
    {summarize : List Char → List Char} {now days : Int} {v : Vendor}
    {kws : List (List Char)} {e : Entry} {it : Item}
    (h : wfBuild parse summarize now days v kws e = some it) : SingleSource it := by
  simp only [wfBuild] at h
  split at h
  · cases h
  · split at h
    · cases h
    · split at h
      · cases h
      · split at h
        · cases h
        · cases h
          exact ⟨_, rfl⟩

/-- A foldl whose step can only keep or append: every element of the
result was in the accumulator or satisfies `P`. -/
theorem foldl_mem_or {β : Type} (P : Item → Prop) (f : List Item → β → List Item)
    (hf : ∀ acc b it, it ∈ f acc b → it ∈ acc ∨ P it) :
    ∀ (l : List β) (acc : List Item) (it : Item), it ∈ l.foldl f acc → it ∈ acc ∨ P it
  | [], _, _, hit => Or.inl hit
  | b :: bs, acc, it, hit => by
    rw [List.foldl_cons] at hit
    rcases foldl_mem_or P f hf bs (f acc b) it hit with h | h
    · exact hf acc b it h
    · exact Or.inr h

theorem wfCollect_sources (parse : List Char → Option Int)
    (summarize : List Char → List Char) (now days : Int) (vendors : List Vendor) :
    ∀ it ∈ wfCollect parse summarize now days vendors, SingleSource it := by
  intro it hit
  unfold wfCollect at hit
  rcases foldl_mem_or SingleSource _ (fun acc v x hx =>
      foldl_mem_or SingleSource _ (fun acc2 feed x2 hx2 =>
        foldl_mem_or SingleSource _ (fun acc3 e x3 hx3 => by
          revert hx3
          cases hb : wfBuild parse summarize now days v (wfKws v.keywords) e with
          | none =>
            intro hx3
            exact Or.inl hx3
          | some j =>
            intro hx3
            rcases List.mem_append.mp hx3 with hl | hl
            · exact Or.inl hl
            · rcases List.mem_singleton.mp hl with rfl
              exact Or.inr (wfBuild_sources hb)) feed acc2 x2 hx2) v.feeds acc x hx)
    vendors [] it hit with h | h
  · cases h
  · exact h

/-- Claim C10 (confirmed).  Every item of a run's output that is not a
carried-over prior item has a sources list of exactly one `{title, url}`
pair (`SingleSource`), in both variants; a within-run dedup-key collision
drops the later entry entirely before any item is built from it, so it can
never append to a surviving item's sources list — items are never mutated
after construction. -/
theorem items_single_source :
    (∀ (parse : List Char → Option Int) (summarize : List Char → List Char)
      (now days : Int) (top : Nat) (existing : List Item) (vendors : List Vendor)
      (it : Item), it ∈ scriptsRun parse summarize now days top existing vendors →
      it ∈ existing ∨ SingleSource it) ∧
    (∀ (parse : List Char → Option Int) (summarize : List Char → List Char)
      (now days : Int) (top : Nat) (vendors : List Vendor) (it : Item),
      it ∈ wfRun parse summarize now days top vendors → SingleSource it) := by
  constructor
  · intro parse summarize now days top existing vendors it hit
    obtain ⟨⟨extra, hm, hextra⟩, -, -⟩ :=
      scriptsCollect_extends parse summarize now days existing vendors
    have hmem : it ∈ (scriptsCollect parse summarize now days existing vendors).merged := by
      have h1 : it ∈ (scriptsCollect parse summarize now days existing
          vendors).merged.insertionSort dateGeRel :=
        List.take_subset _ _ hit
      exact (List.mem_insertionSort dateGeRel).mp h1
    rw [hm] at hmem
    rcases List.mem_append.mp hmem with h | h
    · exact Or.inl h
    · exact Or.inr (hextra it h).1
  · intro parse summarize now days top vendors it hit
    obtain ⟨u, hu, hsub⟩ := wfDedup_decompose
      ((wfCollect parse summarize now days vendors).insertionSort wfGeRel) ([], [])
    simp only [wfRun] at hit
    rw [hu] at hit
    simp only [List.nil_append] at hit
    have h1 := hsub.subset (List.take_subset _ _ hit)
    exact wfCollect_sources parse summarize now days vendors it
      ((List.mem_insertionSort wfGeRel).mp h1)

/-- Witness for `items_single_source`: the surviving item of a scripts run
in which the same entry was scanned twice (an intra-run id collision), and
the sole item of a workflow run. -/
theorem items_single_source_witness :
    (itColl ∈ ([] : List Item) ∨ SingleSource itColl) ∧ SingleSource itNT := by
  constructor
  · exact items_single_source.1 parseW summW 0 30 60 [] [vColl] itColl (by decide)
  · exact items_single_source.2 parseW summW 0 30 12 [vNoTitle] itNT (by decide)

/-! ## Claim C8: rejection is for missing links only -/

/-- Claim C8 (corrected), counterexample part.  The scripts variant drops
an entry whose title and heading are both absent even though its link
resolves (`if not link or not title: continue`): the run over `eNoTitle`
produces no item, while the identical entry with a title produces one.
This contradicts the claim that only a missing link causes rejection. -/
theorem scripts_drops_titleless :
    scriptsRun parseW summW 0 30 60 [] [vNoTitle] = [] ∧
    (scriptsRun parseW summW 0 30 60 [] [vTitled]).length = 1 :=
  ⟨by decide, by decide⟩

/-- Claim C8 (corrected), amended.  In the workflow variant the claim
holds: an entry with a resolvable link whose `title` and `heading` are
both absent is normalized with the empty title, passes the remaining
stages (window, keyword) and produces an Item (with empty `name`).  The
scripts variant additionally rejects entries with an empty/absent title. -/
theorem wf_titleless_entry_kept (parse : List Char → Option Int)
    (summarize : List Char → List Char) (now days : Int) (v : Vendor)
    (kws : List (List Char)) (e : Entry) (d : Int)
    (ht : e.title = none) (hh : e.heading = none)
    (hl : ((pyOrS e.link e.url).getD []).isEmpty = false)
    (hd : wfEntryDate parse e = some d)
    (hw : in_window now (some d) days = true)
    (hm : matchKW (' ' :: (pyOrS e.summary e.content).getD [] ++ ' ' ::
        (pyOrS e.link e.url).getD []) kws = true) :
    ∃ it, wfBuild parse summarize now days v kws e = some it ∧ it.name = [] ∧
      it.id = wfItemId (dateStr d) v.name [] := by
  have htl : pyOrS e.title e.heading = none := by
    rw [ht, hh]
    rfl
  simp only [wfBuild, htl, Option.getD_none, hd, hl, hw, List.nil_append, hm,
    Bool.not_true, Bool.false_eq_true, if_false]
  exact ⟨_, rfl, rfl, rfl⟩

/-- Witness for `wf_titleless_entry_kept` at the concrete entry
`eNoTitle`. -/
theorem wf_titleless_entry_kept_witness :
    ∃ it, wfBuild parseW summW 0 30 vNoTitle (wfKws []) eNoTitle = some it ∧
      it.name = [] ∧ it.id = wfItemId (dateStr 0) vNoTitle.name [] :=
  wf_titleless_entry_kept parseW summW 0 30 vNoTitle (wfKws []) eNoTitle 0
    (by decide) (by decide) (by decide) (by decide) (by decide) (by decide)

/-! ## Claim C9: prior-snapshot loading is non-fatal -/

/-- Claim C9 (corrected), counterexample part.  For a prior snapshot whose
decoded contents are the object `{"items": 5}` — not a JSON list, and not
an object whose `items` field holds one — the loader does *not* return the
empty history: `j.get("items", [])` passes the number through verbatim. -/
theorem load_existing_passthrough :
    load_existing (some (Json.jobj [("items".toList, Json.jnum 5)])) = Json.jnum 5 ∧
    Json.jnum 5 ≠ Json.jarr [] :=
  ⟨rfl, fun h => Json.noConfusion h⟩

/-- Claim C9 (corrected), amended.  The loader is total (every exception
path inside it is caught): a missing/unreadable/undecodable file and any
decoded value that is neither a list nor an object yield the empty
history, a list is returned as is, and an object is reduced to the
verbatim value of its `items` field (empty history when absent) — even
when that value is not a list. -/
theorem load_existing_never_fatal (file : Option Json) :
    load_existing file = Json.jarr [] ∨
    (∃ xs, file = some (Json.jarr xs) ∧ load_existing file = Json.jarr xs) ∨
    (∃ kvs v, file = some (Json.jobj kvs) ∧ jlookup "items".toList kvs = some v ∧
      load_existing file = v) := by
  match file with
  | none => exact Or.inl rfl
  | some (Json.jarr xs) => exact Or.inr (Or.inl ⟨xs, rfl, rfl⟩)
  | some (Json.jobj kvs) =>
    cases h : jlookup "items".toList kvs with
    | none =>
      refine Or.inl ?_
      simp only [load_existing]
      rw [h]
      rfl
    | some v =>
      refine Or.inr (Or.inr ⟨kvs, v, rfl, h, ?_⟩)
      simp only [load_existing]
      rw [h]
      rfl
  | some Json.jnull => exact Or.inl rfl
  | some (Json.jbool b) => exact Or.inl rfl
  | some (Json.jnum n) => exact Or.inl rfl
  | some (Json.jstr s) => exact Or.inl rfl

end AgentRadar
